import Mathlib

/-!
Verification of the cspbuilder policy-compilation core.

The current core of the repository (the revision matched by README.md, the
newest tests and csphandler/handler.go) represents directive sources as plain
strings: `Directive` holds a `sources` list and a `requireNonce` flag,
`Policy.Build`/`MergeBuild` join the directives into the header string, and
`Policy.WithNonce` substitutes a freshly drawn random token for the `$NONCE`
placeholder.  An older revision (src/csp.go) represents keyword sources as a
bitmask; its renderer `Directive.write` is embedded separately below as
`FDirective`/`flagWrite` because some claims speak about its `all` flag.

Strings are modelled as `List Char` (`Str`).  The Go map of directives is an
association list together with an explicit enumeration `ord : List (Str ×
Directive)` wherever the source ranges over the map, because Go's map
iteration order is unspecified.  Randomness is an explicit stream of byte
draws.  A Go `panic` is modelled as `Option.none`.
-/

set_option maxRecDepth 10000

abbrev Str := List Char

def str (s : String) : Str := s.data

/-- `$NONCE`, the default nonce placeholder (global `Nonce` in the source;
`SetNoncePlaceholder` is not modelled, the placeholder stays at its default). -/
def noncePlaceholder : Str := str "$NONCE"

/-- The keyword `'none'` written by `Directive.write` for an empty source list. -/
def noneKw : Str := str "'none'"

structure Directive where
  sources : List Str
  requireNonce : Bool
deriving DecidableEq, Repr

structure Policy where
  dirs : List (Str × Directive)
  reportURI : Str
  compiled : Str
  upgradeInsecureRequests : Bool
  requireNonce : Bool
deriving DecidableEq, Repr

/-- Space-prefixed rendering of all sources after the first. -/
def writeRest : List Str → Str
  | [] => []
  | t :: ts => ' ' :: (t ++ writeRest ts)

/-- `Directive.write` of the current core: the first source, the remaining
sources each prefixed by a blank, or `'none'` when the list is empty. -/
def Directive.write (d : Directive) : Str :=
  match d.sources with
  | [] => noneKw
  | s :: rest => s ++ writeRest rest

/-- `Directive.Add`: appends sources and records the nonce requirement when one
of the added sources is the placeholder. -/
def Directive.add (d : Directive) (ss : List Str) : Directive :=
  { sources := d.sources ++ ss,
    requireNonce := d.requireNonce || ss.any (fun v => v = noncePlaceholder) }

/-- `Directive.Add` establishes the invariant used for nonce substitution:
whenever it sets the `requireNonce` flag, the placeholder is among the
appended sources (the flag is unexported and only `Add` sets it). -/
theorem add_requireNonce_mem (d : Directive) (ss : List Str)
    (hd : d.requireNonce = true → noncePlaceholder ∈ d.sources) :
    (d.add ss).requireNonce = true → noncePlaceholder ∈ (d.add ss).sources := by
  intro h
  simp only [Directive.add, Bool.or_eq_true, List.any_eq_true] at h
  simp only [Directive.add, List.mem_append]
  rcases h with h | ⟨v, hv, he⟩
  · exact Or.inl (hd h)
  · exact Or.inr (by rwa [← of_decide_eq_true he])

def joinStr : List Str → Str
  | [] => []
  | s :: r => s ++ joinStr r

/-- One directive as emitted by `Policy.writeDirs`: name, blank, rendered
sources, the rendered sources of the matching request-scoped addition if any,
and the terminating semicolon. -/
def dirSegment (adds : Str → Option Directive) (name : Str) (d : Directive) : Str :=
  name ++ ' ' :: (d.write ++
    (match adds name with
     | some d2 => ' ' :: d2.write
     | none => []) ++ [';'])

def writeDirsStr (adds : Str → Option Directive) (ord : List (Str × Directive)) : Str :=
  joinStr (ord.map fun p => dirSegment adds p.1 p.2)

/-- The `RequireNonce` recomputation of `Policy.writeDirs`: OR over the
enumerated directives and over the additions looked up for enumerated names. -/
def writeDirsNonce (adds : Str → Option Directive) (ord : List (Str × Directive)) : Bool :=
  ord.any fun p =>
    p.2.requireNonce ||
      (match adds p.1 with
       | some d2 => d2.requireNonce
       | none => false)

def upgradeStr : Str := str "upgrade-insecure-requests;"

def reportUriStr : Str := str "report-uri "

/-- Trim of the single trailing semicolon performed at the end of `MergeBuild`. -/
def trimSemi (s : Str) : Str :=
  if s ≠ [] ∧ s.getLast? = some ';' then s.dropLast else s

/-- `Policy.MergeBuild`: renders the enumerated directives (extended by the
additions), appends the upgrade-insecure-requests and report-uri parts, trims
one trailing semicolon, records the recomputed `RequireNonce` on the policy and
returns the fresh string.  `Compiled` and `dirs` are left untouched. -/
def mergeBuild (pol : Policy) (adds : Str → Option Directive)
    (ord : List (Str × Directive)) : Policy × Str :=
  let body := writeDirsStr adds ord
  let s := body ++ (if pol.upgradeInsecureRequests then upgradeStr else []) ++
    (if pol.reportURI ≠ [] then reportUriStr ++ pol.reportURI else [])
  ({ pol with requireNonce := writeDirsNonce adds ord }, trimSemi s)

/-- `Policy.Build`: `MergeBuild` with no additions, with the result also stored
in `Compiled`. -/
def build (pol : Policy) (ord : List (Str × Directive)) : Policy × Str :=
  let r := mergeBuild pol (fun _ => none) ord
  ({ r.1 with compiled := r.2 }, r.2)

/-! ### base64 (encoding/base64 RawURLEncoding and StdEncoding) -/

/-- Bytes to base64 sextets, three bytes giving four sextets, with the
unpadded remainder handling of the raw encodings. -/
def encodeGroups : List Nat → List Nat
  | [] => []
  | [b1] => [b1 / 4, b1 % 4 * 16]
  | [b1, b2] => [b1 / 4, b1 % 4 * 16 + b2 / 16, b2 % 16 * 4]
  | b1 :: b2 :: b3 :: rest =>
      b1 / 4 :: (b1 % 4 * 16 + b2 / 16) :: (b2 % 16 * 4 + b3 / 64) :: b3 % 64 ::
        encodeGroups rest

/-- Base64 sextets back to bytes; inverse of `encodeGroups` on its image. -/
def decodeGroups : List Nat → List Nat
  | s1 :: s2 :: s3 :: s4 :: rest =>
      (s1 * 4 + s2 / 16) :: (s2 % 16 * 16 + s3 / 4) :: (s3 % 4 * 64 + s4) ::
        decodeGroups rest
  | [s1, s2] => [s1 * 4 + s2 / 16]
  | [s1, s2, s3] => [s1 * 4 + s2 / 16, s2 % 16 * 16 + s3 / 4]
  | _ => []

def urlAlphabet : Str :=
  str "ABCDEFGHIJKLMNOPQRSTUVWXYZabcdefghijklmnopqrstuvwxyz0123456789-_"

def stdAlphabet : Str :=
  str "ABCDEFGHIJKLMNOPQRSTUVWXYZabcdefghijklmnopqrstuvwxyz0123456789+/"

def urlChar (n : Nat) : Char := urlAlphabet.getD n '='

def stdChar (n : Nat) : Char := stdAlphabet.getD n '='

/-- `base64.RawURLEncoding.EncodeToString`: URL-safe alphabet, no padding. -/
def b64url (bs : List Nat) : Str := (encodeGroups bs).map urlChar

/-- `base64.StdEncoding.EncodeToString`: standard alphabet, padded with `=`. -/
def b64std (bs : List Nat) : Str :=
  (encodeGroups bs).map stdChar ++
    (match bs.length % 3 with
     | 1 => ['=', '=']
     | 2 => ['=']
     | _ => [])

def urlCharInv (c : Char) : Option Nat := urlAlphabet.indexOf? c

def decodeChars : Str → Option (List Nat)
  | [] => some []
  | c :: cs =>
      match urlCharInv c, decodeChars cs with
      | some s, some r => some (s :: r)
      | _, _ => none

/-- Decoder for unpadded URL-safe base64; `some` exactly on valid strings. -/
def b64urlDecode (s : Str) : Option (List Nat) :=
  (decodeChars s).map decodeGroups

theorem b64url_sample : b64url [0, 0, 0] = str "AAAA" := by decide

theorem b64std_sample : b64std [255] = str "/w==" := by decide

theorem b64urlDecode_sample : b64urlDecode (b64url [1, 2, 3, 4]) = some [1, 2, 3, 4] := by
  decide

/-! ### strings.ReplaceAll -/

/-- Fuel-driven worker for `replaceAll`; the fuel only needs to dominate the
length of the remaining string, one unit per examined position. -/
def replaceAllF (pat rep : Str) : Nat → Str → Str
  | 0, s => s
  | _ + 1, [] => []
  | f + 1, c :: cs =>
      if pat.isPrefixOf (c :: cs) then
        rep ++ replaceAllF pat rep f (cs.drop (pat.length - 1))
      else
        c :: replaceAllF pat rep f cs

/-- `strings.ReplaceAll`: replace every non-overlapping occurrence of `pat`
in `s` by `rep`, scanning left to right. -/
def replaceAll (pat rep s : Str) : Str := replaceAllF pat rep s.length s

theorem replaceAll_sample :
    replaceAll (str "$NONCE") (str "X") (str "a $NONCE b $NONCE") = str "a X b X" := by
  decide

/-! ### crypto/rand and Policy.WithNonce -/

/-- `Policy.WithNonce`.  `rand` is the stream of 16-byte draws of
`crypto/rand.Read`, one element consumed per successful draw; `nonceIn` is the
value behind the `nonce` pointer at the call.  Returns the policy (rebuilt when
`Compiled` was empty), the header string, the pointer value after the call and
the remaining stream. -/
def withNonce (pol : Policy) (ord : List (Str × Directive))
    (rand : List (List Nat)) (nonceIn : Str) :
    Policy × Str × Str × List (List Nat) :=
  let pol1 := if pol.compiled = [] then (build pol ord).1 else pol
  if pol1.requireNonce = false then
    (pol1, pol1.compiled, nonceIn, rand)
  else
    let tok := b64url (rand.headD (List.replicate 16 0))
    (pol1, replaceAll noncePlaceholder (str "'nonce-" ++ tok ++ str "'") pol1.compiled,
      tok, rand.drop 1)

/-! ### SHA-2 (crypto/sha256, crypto/sha512) -/

def w64 : Nat := 18446744073709551616

def w32 : Nat := 4294967296

def rotr64 (n x : Nat) : Nat := ((x >>> n) ||| (x <<< (64 - n))) % w64

def rotr32 (n x : Nat) : Nat := ((x >>> n) ||| (x <<< (32 - n))) % w32

def K512c : List Nat := [
  4794697086780616226, 8158064640168781261, 13096744586834688815, 16840607885511220156,
  4131703408338449720, 6480981068601479193, 10538285296894168987, 12329834152419229976,
  15566598209576043074, 1334009975649890238, 2608012711638119052, 6128411473006802146,
  8268148722764581231, 9286055187155687089, 11230858885718282805, 13951009754708518548,
  16472876342353939154, 17275323862435702243, 1135362057144423861, 2597628984639134821,
  3308224258029322869, 5365058923640841347, 6679025012923562964, 8573033837759648693,
  10970295158949994411, 12119686244451234320, 12683024718118986047, 13788192230050041572,
  14330467153632333762, 15395433587784984357, 489312712824947311, 1452737877330783856,
  2861767655752347644, 3322285676063803686, 5560940570517711597, 5996557281743188959,
  7280758554555802590, 8532644243296465576, 9350256976987008742, 10552545826968843579,
  11727347734174303076, 12113106623233404929, 14000437183269869457, 14369950271660146224,
  15101387698204529176, 15463397548674623760, 17586052441742319658, 1182934255886127544,
  1847814050463011016, 2177327727835720531, 2830643537854262169, 3796741975233480872,
  4115178125766777443, 5681478168544905931, 6601373596472566643, 7507060721942968483,
  8399075790359081724, 8693463985226723168, 9568029438360202098, 10144078919501101548,
  10430055236837252648, 11840083180663258601, 13761210420658862357, 14299343276471374635,
  14566680578165727644, 15097957966210449927, 16922976911328602910, 17689382322260857208,
  500013540394364858, 748580250866718886, 1242879168328830382, 1977374033974150939,
  2944078676154940804, 3659926193048069267, 4368137639120453308, 4836135668995329356,
  5532061633213252278, 6448918945643986474, 6902733635092675308, 7801388544844847127]

def H512c : List Nat := [
  7640891576956012808, 13503953896175478587, 4354685564936845355, 11912009170470909681,
  5840696475078001361, 11170449401992604703, 2270897969802886507, 6620516959819538809]

def H384c : List Nat := [
  14680500436340154072, 7105036623409894663, 10473403895298186519, 1526699215303891257,
  7436329637833083697, 10282925794625328401, 15784041429090275239, 5167115440072839076]

def K256c : List Nat := [
  1116352408, 1899447441, 3049323471, 3921009573, 961987163, 1508970993,
  2453635748, 2870763221, 3624381080, 310598401, 607225278, 1426881987,
  1925078388, 2162078206, 2614888103, 3248222580, 3835390401, 4022224774,
  264347078, 604807628, 770255983, 1249150122, 1555081692, 1996064986,
  2554220882, 2821834349, 2952996808, 3210313671, 3336571891, 3584528711,
  113926993, 338241895, 666307205, 773529912, 1294757372, 1396182291,
  1695183700, 1986661051, 2177026350, 2456956037, 2730485921, 2820302411,
  3259730800, 3345764771, 3516065817, 3600352804, 4094571909, 275423344,
  430227734, 506948616, 659060556, 883997877, 958139571, 1322822218,
  1537002063, 1747873779, 1955562222, 2024104815, 2227730452, 2361852424,
  2428436474, 2756734187, 3204031479, 3329325298]

def H256c : List Nat := [
  1779033703, 3144134277, 1013904242, 2773480762, 1359893119, 2600822924,
  528734635, 1541459225]

/-- Big-endian byte encoding of `v` on `n` bytes. -/
def beBytes : Nat → Nat → List Nat
  | 0, _ => []
  | n + 1, v => beBytes n (v / 256) ++ [v % 256]

/-- SHA-2 message padding: `0x80`, zeros, and the bit length on `2 * wordBytes`
bytes, filling to a multiple of `16 * wordBytes`. -/
def shaPad (wordBytes : Nat) (msg : List Nat) : List Nat :=
  let bs := 16 * wordBytes
  let z := (bs - (msg.length + 1 + 2 * wordBytes) % bs) % bs
  msg ++ 128 :: List.replicate z 0 ++ beBytes (2 * wordBytes) (8 * msg.length)

/-- Split into chunks of `k + 1` elements (used with full multiples only). -/
def chunkGo (k : Nat) : List Nat → Nat → List Nat → List (List Nat)
  | [], _, acc => [acc.reverse]
  | x :: xs, n + 1, acc => chunkGo k xs n (x :: acc)
  | x :: xs, 0, acc => acc.reverse :: chunkGo k xs k [x]

def chunks (k : Nat) (l : List Nat) : List (List Nat) :=
  match l with
  | [] => []
  | x :: xs => chunkGo (k - 1) xs (k - 1) [x]

def wordOfBytes (bs : List Nat) : Nat := bs.foldl (fun a b => a * 256 + b) 0

/-- SHA-512 message-schedule extension, accumulator kept most recent first. -/
def sched512 : Nat → List Nat → List Nat
  | 0, acc => acc
  | k + 1, acc =>
      let wm2 := acc.getD 1 0
      let wm15 := acc.getD 14 0
      let s0 := (rotr64 1 wm15) ^^^ (rotr64 8 wm15) ^^^ (wm15 >>> 7)
      let s1 := (rotr64 19 wm2) ^^^ (rotr64 61 wm2) ^^^ (wm2 >>> 6)
      sched512 k (((acc.getD 15 0 + s0 + acc.getD 6 0 + s1) % w64) :: acc)

structure ShaState where
  a : Nat
  b : Nat
  c : Nat
  d : Nat
  e : Nat
  f : Nat
  g : Nat
  h : Nat

def round512 (st : ShaState) (kw : Nat × Nat) : ShaState :=
  let S1 := (rotr64 14 st.e) ^^^ (rotr64 18 st.e) ^^^ (rotr64 41 st.e)
  let ch := (st.e &&& st.f) ^^^ ((st.e ^^^ (w64 - 1)) &&& st.g)
  let t1 := (st.h + S1 + ch + kw.1 + kw.2) % w64
  let S0 := (rotr64 28 st.a) ^^^ (rotr64 34 st.a) ^^^ (rotr64 39 st.a)
  let mj := (st.a &&& st.b) ^^^ (st.a &&& st.c) ^^^ (st.b &&& st.c)
  let t2 := (S0 + mj) % w64
  ⟨(t1 + t2) % w64, st.a, st.b, st.c, (st.d + t1) % w64, st.e, st.f, st.g⟩

def block512 (hs : List Nat) (blk : List Nat) : List Nat :=
  let ws0 := (chunks 8 blk).map wordOfBytes
  let ws := (sched512 64 ws0.reverse).reverse
  let st0 : ShaState := ⟨hs.getD 0 0, hs.getD 1 0, hs.getD 2 0, hs.getD 3 0,
    hs.getD 4 0, hs.getD 5 0, hs.getD 6 0, hs.getD 7 0⟩
  let st := (List.zip K512c ws).foldl round512 st0
  [(hs.getD 0 0 + st.a) % w64, (hs.getD 1 0 + st.b) % w64,
   (hs.getD 2 0 + st.c) % w64, (hs.getD 3 0 + st.d) % w64,
   (hs.getD 4 0 + st.e) % w64, (hs.getD 5 0 + st.f) % w64,
   (hs.getD 6 0 + st.g) % w64, (hs.getD 7 0 + st.h) % w64]

/-- SHA-512 family core over an initial state, returning `outWords` words. -/
def sha512Core (iv : List Nat) (outWords : Nat) (msg : List Nat) : List Nat :=
  (((chunks 128 (shaPad 8 msg)).foldl block512 iv).take outWords).flatMap (beBytes 8)

/-- `sha512.Sum512`. -/
def sha512sum (msg : List Nat) : List Nat := sha512Core H512c 8 msg

/-- `sha512.Sum384`. -/
def sha384sum (msg : List Nat) : List Nat := sha512Core H384c 6 msg

def sched256 : Nat → List Nat → List Nat
  | 0, acc => acc
  | k + 1, acc =>
      let wm2 := acc.getD 1 0
      let wm15 := acc.getD 14 0
      let s0 := (rotr32 7 wm15) ^^^ (rotr32 18 wm15) ^^^ (wm15 >>> 3)
      let s1 := (rotr32 17 wm2) ^^^ (rotr32 19 wm2) ^^^ (wm2 >>> 10)
      sched256 k (((acc.getD 15 0 + s0 + acc.getD 6 0 + s1) % w32) :: acc)

def round256 (st : ShaState) (kw : Nat × Nat) : ShaState :=
  let S1 := (rotr32 6 st.e) ^^^ (rotr32 11 st.e) ^^^ (rotr32 25 st.e)
  let ch := (st.e &&& st.f) ^^^ ((st.e ^^^ (w32 - 1)) &&& st.g)
  let t1 := (st.h + S1 + ch + kw.1 + kw.2) % w32
  let S0 := (rotr32 2 st.a) ^^^ (rotr32 13 st.a) ^^^ (rotr32 22 st.a)
  let mj := (st.a &&& st.b) ^^^ (st.a &&& st.c) ^^^ (st.b &&& st.c)
  let t2 := (S0 + mj) % w32
  ⟨(t1 + t2) % w32, st.a, st.b, st.c, (st.d + t1) % w32, st.e, st.f, st.g⟩

def block256 (hs : List Nat) (blk : List Nat) : List Nat :=
  let ws0 := (chunks 4 blk).map wordOfBytes
  let ws := (sched256 48 ws0.reverse).reverse
  let st0 : ShaState := ⟨hs.getD 0 0, hs.getD 1 0, hs.getD 2 0, hs.getD 3 0,
    hs.getD 4 0, hs.getD 5 0, hs.getD 6 0, hs.getD 7 0⟩
  let st := (List.zip K256c ws).foldl round256 st0
  [(hs.getD 0 0 + st.a) % w32, (hs.getD 1 0 + st.b) % w32,
   (hs.getD 2 0 + st.c) % w32, (hs.getD 3 0 + st.d) % w32,
   (hs.getD 4 0 + st.e) % w32, (hs.getD 5 0 + st.f) % w32,
   (hs.getD 6 0 + st.g) % w32, (hs.getD 7 0 + st.h) % w32]

/-- `sha256.Sum256`. -/
def sha256sum (msg : List Nat) : List Nat :=
  (((chunks 64 (shaPad 4 msg)).foldl block256 H256c).flatMap (beBytes 4))

/-! ### hash literals (func hash, Directive.Hash) -/

/-- `hash(ht, source)` of the current core: digest switch producing
`'sha<bits>-<std base64 with padding>'`; any other algorithm identifier hits
the `default: panic("invalid hashType")` branch, modelled as `none`. -/
def hashFn (ht : Nat) (source : Str) : Option Str :=
  match ht with
  | 256 => some (str "'sha256-" ++ b64std (sha256sum (source.map Char.toNat)) ++ str "'")
  | 384 => some (str "'sha384-" ++ b64std (sha384sum (source.map Char.toNat)) ++ str "'")
  | 512 => some (str "'sha512-" ++ b64std (sha512sum (source.map Char.toNat)) ++ str "'")
  | _ => none

/-- `Directive.Hash`: appends the hash literal to the sources (no singleton
check); a panic in `hash` propagates. -/
def Directive.hashAdd (d : Directive) (ht : Nat) (source : Str) : Option Directive :=
  (hashFn ht source).map fun h => { d with sources := d.sources ++ [h] }

/-! ### shared singleton directives (SelfDirective, NoneDirective) -/

def selfDirective : Directive := { sources := [str "'self'"], requireNonce := false }

def noneDirective : Directive := { sources := [str "'none'"], requireNonce := false }

/-- A `*Directive` reference: one of the two shared singleton allocations or an
ordinary heap cell holding `d`.  `Directive.Add` compares the receiver pointer
against the singletons; this type records that pointer identity. -/
inductive DirRef where
  | selfD : DirRef
  | noneD : DirRef
  | plain : Directive → DirRef
deriving DecidableEq, Repr

/-- The directive value currently behind a reference (initial heap). -/
def DirRef.val : DirRef → Directive
  | .selfD => selfDirective
  | .noneD => noneDirective
  | .plain d => d

/-- `Directive.Add` as seen through a reference: panics (`none`) on the two
shared singletons, otherwise appends. -/
def DirRef.add (r : DirRef) (ss : List Str) : Option Directive :=
  match r with
  | .selfD => none
  | .noneD => none
  | .plain d => some (d.add ss)

/-- `Directive.Hash` as seen through a reference: no singleton check is
performed; the value behind the reference (the shared singleton included) gets
the literal appended. -/
def DirRef.hash (r : DirRef) (ht : Nat) (source : Str) : Option Directive :=
  r.val.hashAdd ht source

/-! ### the flag-based renderer of the older revision src/csp.go -/

/-- `Directive` of src/csp.go: a bitmask of keyword flags plus string sources. -/
structure FDirective where
  Sources : List Str
  SourceFlag : Nat
deriving DecidableEq, Repr

/-- The `src` map of src/csp.go, keyed by single flag bits
(None=0, All=2, Self=4, Nonce=8, StrictDynamic=16, UnsafeEval=32,
UnsafeInline=64, UnsafeHashes=128, UnsafeAllowRedirects=256, Blob=512,
Data=1024, Mediastream=2048, Filesystem=4096, ReportSample=8192). -/
def srcTok (f : Nat) : Option Str :=
  match f with
  | 0 => some (str " 'none';")
  | 2 => some (str " *;")
  | 4 => some (str " 'self'")
  | 8 => some (str " $NONCE")
  | 16 => some (str " 'strict-dynamic'")
  | 32 => some (str " 'unsafe-eval'")
  | 64 => some (str " 'unsafe-inline'")
  | 128 => some (str " 'unsafe-hashes'")
  | 256 => some (str " 'unsafe-allow-redirects'")
  | 512 => some (str " blob:")
  | 1024 => some (str " data:")
  | 2048 => some (str " mediastream:")
  | 4096 => some (str " filesystem:")
  | 8192 => some (str "report-sample")
  | _ => none

/-- The flag loop of src/csp.go `Directive.write`: `f` runs over the powers of
two from `Self` (4) upward while `f <= SourceFlag`, emitting `src[f]` when the
bit is set and the map has an entry.  (Faithful for `SourceFlag < 2^31`, where
the Go loop terminates.) -/
def flagLoop (flag : Nat) : Str :=
  joinStr ((((List.range 29).map fun i => 2 ^ (i + 2)).filter fun f => f ≤ flag).map
    fun f => if f &&& flag ≠ 0 then (srcTok f).getD [] else [])

/-- `Directive.write` of src/csp.go: short-circuit on `SourceFlag == All` or on
`SourceFlag == None` with no sources, else flag loop, then each string source
space-prefixed, then `;`. -/
def flagWrite (d : FDirective) : Str :=
  if d.SourceFlag = 2 ∨ (d.SourceFlag = 0 ∧ d.Sources = []) then
    (srcTok d.SourceFlag).getD []
  else
    flagLoop d.SourceFlag ++ writeRest d.Sources ++ [';']

theorem flagWrite_sample :
    flagWrite { Sources := [str "a.com"], SourceFlag := 64 ||| 1024 } =
      str " 'unsafe-inline' data: a.com;" := by
  decide

/-! ### base64 roundtrip lemmas -/

theorem encodeGroups_lt : ∀ bs : List Nat, (∀ b ∈ bs, b < 256) →
    ∀ s ∈ encodeGroups bs, s < 64
  | [], _ => by simp [encodeGroups]
  | [b1], h => by
      have h1 : b1 < 256 := h b1 (by simp)
      simp only [encodeGroups, List.mem_cons, List.not_mem_nil, or_false]
      rintro s (rfl | rfl) <;> omega
  | [b1, b2], h => by
      have h1 : b1 < 256 := h b1 (by simp)
      have h2 : b2 < 256 := h b2 (by simp)
      simp only [encodeGroups, List.mem_cons, List.not_mem_nil, or_false]
      rintro s (rfl | rfl | rfl) <;> omega
  | b1 :: b2 :: b3 :: rest, h => by
      have h1 : b1 < 256 := h b1 (by simp)
      have h2 : b2 < 256 := h b2 (by simp)
      have h3 : b3 < 256 := h b3 (by simp)
      have ih := encodeGroups_lt rest (fun b hb => h b (by simp [hb]))
      simp only [encodeGroups, List.mem_cons]
      rintro s (rfl | rfl | rfl | rfl | hs)
      · omega
      · omega
      · omega
      · omega
      · exact ih s hs

theorem decode_encodeGroups : ∀ bs : List Nat, (∀ b ∈ bs, b < 256) →
    decodeGroups (encodeGroups bs) = bs
  | [], _ => rfl
  | [b1], h => by
      have h1 : b1 < 256 := h b1 (by simp)
      simp only [encodeGroups, decodeGroups]
      congr 1
      omega
  | [b1, b2], h => by
      have h1 : b1 < 256 := h b1 (by simp)
      have h2 : b2 < 256 := h b2 (by simp)
      simp only [encodeGroups, decodeGroups]
      congr 1
      · omega
      · congr 1
        omega
  | b1 :: b2 :: b3 :: rest, h => by
      have h1 : b1 < 256 := h b1 (by simp)
      have h2 : b2 < 256 := h b2 (by simp)
      have h3 : b3 < 256 := h b3 (by simp)
      have ih := decode_encodeGroups rest (fun b hb => h b (by simp [hb]))
      simp only [encodeGroups, decodeGroups, ih, List.cons.injEq, eq_self_iff_true, and_true]
      refine ⟨by omega, by omega, by omega⟩

theorem urlCharInv_urlChar : ∀ s : Nat, s < 64 → urlCharInv (urlChar s) = some s := by
  decide

theorem decodeChars_map : ∀ ss : List Nat, (∀ s ∈ ss, s < 64) →
    decodeChars (ss.map urlChar) = some ss
  | [], _ => rfl
  | s :: r, h => by
      have h1 : s < 64 := h s (by simp)
      have ih := decodeChars_map r (fun t ht => h t (by simp [ht]))
      simp [decodeChars, urlCharInv_urlChar s h1, ih]

/-- Round trip: decoding an encoded byte string recovers the bytes. -/
theorem b64urlDecode_b64url (bs : List Nat) (h : ∀ b ∈ bs, b < 256) :
    b64urlDecode (b64url bs) = some bs := by
  unfold b64urlDecode b64url
  rw [decodeChars_map (encodeGroups bs) (encodeGroups_lt bs h)]
  simp [decode_encodeGroups bs h]

/-! ### replaceAll lemmas -/

theorem replaceAllF_eq_of_le (pat rep : Str) :
    ∀ f₁ f₂ s, s.length ≤ f₁ → s.length ≤ f₂ →
      replaceAllF pat rep f₁ s = replaceAllF pat rep f₂ s := by
  intro f₁
  induction f₁ with
  | zero =>
      intro f₂ s h1 _
      have hs : s = [] := by cases s <;> simp_all
      subst hs
      cases f₂ <;> rfl
  | succ f ih =>
      intro f₂ s h1 h2
      cases s with
      | nil => cases f₂ <;> rfl
      | cons c cs =>
          cases f₂ with
          | zero => simp at h2
          | succ g =>
              simp only [replaceAllF]
              cases hp : pat.isPrefixOf (c :: cs) with
              | false =>
                  simp only [Bool.false_eq_true, if_false]
                  have := ih g cs (by simpa using h1) (by simpa using h2)
                  rw [this]
              | true =>
                  simp only [if_true]
                  have hd : (cs.drop (pat.length - 1)).length ≤ f := by
                    simp only [List.length_drop]
                    simp at h1
                    omega
                  have hd2 : (cs.drop (pat.length - 1)).length ≤ g := by
                    simp only [List.length_drop]
                    simp at h2
                    omega
                  rw [ih g _ hd hd2]

theorem replaceAll_nil (pat rep : Str) : replaceAll pat rep [] = [] := rfl

theorem replaceAll_cons (pat rep : Str) (c : Char) (cs : Str) :
    replaceAll pat rep (c :: cs) =
      if pat.isPrefixOf (c :: cs) then
        rep ++ replaceAll pat rep (cs.drop (pat.length - 1))
      else
        c :: replaceAll pat rep cs := by
  unfold replaceAll
  simp only [List.length_cons, replaceAllF]
  cases hp : pat.isPrefixOf (c :: cs) with
  | false =>
      simp only [Bool.false_eq_true, if_false]
  | true =>
      simp only [if_true]
      rw [replaceAllF_eq_of_le pat rep cs.length _ _ (by simp [List.length_drop]) le_rfl]

/-- Replacement of a nonempty pattern by a string at least as long never
shortens. -/
theorem replaceAll_length_ge (pat rep : Str) (hne : pat ≠ [])
    (hlen : pat.length ≤ rep.length) :
    ∀ s : Str, s.length ≤ (replaceAll pat rep s).length
  | [] => by simp [replaceAll_nil]
  | c :: cs => by
      have hpos : 0 < pat.length := List.length_pos.mpr hne
      rw [replaceAll_cons]
      cases hp : pat.isPrefixOf (c :: cs) with
      | false =>
          simp only [Bool.false_eq_true, if_false, List.length_cons]
          have := replaceAll_length_ge pat rep hne hlen cs
          omega
      | true =>
          simp only [if_true, List.length_append, List.length_cons, List.length_drop]
          have hple : pat.length ≤ cs.length + 1 := by
            have := List.IsPrefix.length_le (List.isPrefixOf_iff_prefix.mp hp)
            simpa using this
          have := replaceAll_length_ge pat rep hne hlen (cs.drop (pat.length - 1))
          simp only [List.length_drop] at this
          omega
termination_by s => s.length
decreasing_by
  all_goals simp only [List.length_drop, List.length_cons]
  all_goals omega

/-- With a strictly longer replacement, a string containing the pattern
strictly grows. -/
theorem replaceAll_length_gt (pat rep : Str) (hne : pat ≠ []) (hlen : pat.length < rep.length) :
    ∀ pre post : Str,
      (pre ++ pat ++ post).length < (replaceAll pat rep (pre ++ pat ++ post)).length := by
  intro pre
  induction pre with
  | nil =>
      intro post
      cases hpat : pat with
      | nil => exact absurd hpat hne
      | cons p0 pt =>
          subst hpat
          simp only [List.nil_append, List.cons_append]
          rw [replaceAll_cons]
          have hp : (p0 :: pt).isPrefixOf (p0 :: (pt ++ post)) = true := by
            rw [List.isPrefixOf_iff_prefix]
            exact ⟨post, by simp⟩
          rw [hp]
          simp only [if_true, List.length_append, List.length_cons]
          have hdrop : List.drop (pt.length + 1 - 1) (pt ++ post) = post := by
            simp
          rw [hdrop]
          have := replaceAll_length_ge (p0 :: pt) rep hne (le_of_lt hlen) post
          simp only [List.length_cons] at hlen ⊢
          omega
  | cons c pre' ih =>
      intro post
      simp only [List.cons_append]
      rw [replaceAll_cons]
      have hpos : 0 < pat.length := List.length_pos.mpr hne
      cases hp : pat.isPrefixOf (c :: (pre' ++ pat ++ post)) with
      | false =>
          simp only [Bool.false_eq_true, if_false, List.length_cons]
          have := ih post
          omega
      | true =>
          simp only [if_true, List.length_append, List.length_cons, List.length_drop]
          have hple : pat.length ≤ (pre' ++ pat ++ post).length + 1 := by
            have := List.IsPrefix.length_le (List.isPrefixOf_iff_prefix.mp hp)
            simpa using this
          have hge := replaceAll_length_ge pat rep hne (le_of_lt hlen)
            ((pre' ++ pat ++ post).drop (pat.length - 1))
          simp only [List.length_drop] at hge
          have hlen2 : (pre' ++ pat ++ post).length =
              pre'.length + pat.length + post.length := by
            simp [Nat.add_assoc]
          omega

/-- A string containing the pattern changes under a strictly longer
replacement. -/
theorem replaceAll_ne (pat rep : Str) (hne : pat ≠ []) (hlen : pat.length < rep.length)
    (s : Str) (hocc : ∃ pre post, s = pre ++ pat ++ post) :
    replaceAll pat rep s ≠ s := by
  obtain ⟨pre, post, rfl⟩ := hocc
  intro he
  have := replaceAll_length_gt pat rep hne hlen pre post
  rw [he] at this
  omega

/-! ### occurrence of a substring -/

/-- `pat` occurs in `s` as a contiguous substring. -/
def Occ (pat s : Str) : Prop := ∃ pre post, s = pre ++ pat ++ post

/-- `pat` occurs in `s` with at least one character after it. -/
def OccF (pat s : Str) : Prop := ∃ pre c post, s = pre ++ pat ++ c :: post

theorem Occ.of_occF {pat s : Str} (h : OccF pat s) : Occ pat s := by
  obtain ⟨pre, c, post, rfl⟩ := h
  exact ⟨pre, c :: post, rfl⟩

theorem Occ.prepend {pat s : Str} (t : Str) (h : Occ pat s) : Occ pat (t ++ s) := by
  obtain ⟨pre, post, rfl⟩ := h
  exact ⟨t ++ pre, post, by simp⟩

theorem OccF.prependF {pat s : Str} (t : Str) (h : OccF pat s) : OccF pat (t ++ s) := by
  obtain ⟨pre, c, post, rfl⟩ := h
  exact ⟨t ++ pre, c, post, by simp⟩

theorem OccF.append_right {pat s : Str} (t : Str) (h : OccF pat s) : OccF pat (s ++ t) := by
  obtain ⟨pre, c, post, rfl⟩ := h
  exact ⟨pre, c, post ++ t, by simp⟩

theorem Occ.followed {pat s u : Str} (h : Occ pat s) (hu : u ≠ []) : OccF pat (s ++ u) := by
  obtain ⟨pre, post, rfl⟩ := h
  cases post with
  | nil =>
      cases u with
      | nil => exact absurd rfl hu
      | cons c t => exact ⟨pre, c, t, by simp⟩
  | cons p0 post' =>
      exact ⟨pre, p0, post' ++ u, by simp⟩

theorem occ_ne_nil {pat s : Str} (h : Occ pat s) (hpat : pat ≠ []) : s ≠ [] := by
  obtain ⟨pre, post, rfl⟩ := h
  cases pre <;> cases pat <;> simp_all

theorem occ_writeRest {src : Str} : ∀ {ts : List Str}, src ∈ ts → Occ src (writeRest ts)
  | t :: ts', h => by
      rcases List.mem_cons.mp h with rfl | h'
      · exact ⟨[' '], writeRest ts', by simp [writeRest]⟩
      · have := occ_writeRest h'
        obtain ⟨pre, post, he⟩ := this
        exact ⟨' ' :: t ++ pre, post, by simp [writeRest, he]⟩

theorem occ_write {src : Str} {d : Directive} (h : src ∈ d.sources) :
    Occ src d.write := by
  unfold Directive.write
  cases hs : d.sources with
  | nil => simp [hs] at h
  | cons s0 rest =>
      rw [hs] at h
      rcases List.mem_cons.mp h with rfl | h'
      · exact ⟨[], writeRest rest, rfl⟩
      · exact (occ_writeRest h').prepend s0

theorem occF_dirSegment {src : Str} {d : Directive} (adds : Str → Option Directive)
    (name : Str) (h : src ∈ d.sources) : OccF src (dirSegment adds name d) := by
  unfold dirSegment
  have hocc : Occ src d.write := occ_write h
  have hne : ((match adds name with
      | some d2 => ' ' :: d2.write
      | none => ([] : Str)) ++ [';']) ≠ [] := by
    cases adds name <;> simp
  have : OccF src (d.write ++ ((match adds name with
      | some d2 => ' ' :: d2.write
      | none => ([] : Str)) ++ [';'])) := hocc.followed hne
  have h2 : OccF src (' ' :: (d.write ++ ((match adds name with
      | some d2 => ' ' :: d2.write
      | none => ([] : Str)) ++ [';']))) := by
    simpa using this.prependF [' ']
  simpa [List.append_assoc] using h2.prependF name

theorem occF_writeDirsStr {src : Str} (adds : Str → Option Directive) :
    ∀ {ord : List (Str × Directive)} {p : Str × Directive}, p ∈ ord →
      OccF src (dirSegment adds p.1 p.2) → OccF src (writeDirsStr adds ord)
  | q :: ord', p, hmem, hseg => by
      rcases List.mem_cons.mp hmem with rfl | h'
      · unfold writeDirsStr
        simp only [List.map_cons, joinStr]
        exact hseg.append_right _
      · unfold writeDirsStr
        simp only [List.map_cons, joinStr]
        exact (occF_writeDirsStr adds h' hseg).prependF _

theorem occ_trimSemi {pat s : Str} (h : OccF pat s) : Occ pat (trimSemi s) := by
  unfold trimSemi
  split
  · obtain ⟨pre, c, post, rfl⟩ := h
    refine ⟨pre, (c :: post).dropLast, ?_⟩
    rw [List.append_assoc, List.dropLast_append_of_ne_nil _ (by simp),
      List.dropLast_append_of_ne_nil _ (by simp)]
    simp
  · exact Occ.of_occF h

/-- The placeholder occurs (followed by something) in the pre-trim merge
string as soon as an enumerated directive carries it among its sources. -/
theorem occ_mergeBuild (pol : Policy) (adds : Str → Option Directive)
    {ord : List (Str × Directive)} {p : Str × Directive} {src : Str}
    (hmem : p ∈ ord) (hsrc : src ∈ p.2.sources) :
    Occ src (mergeBuild pol adds ord).2 := by
  unfold mergeBuild
  simp only
  apply occ_trimSemi
  exact ((occF_writeDirsStr adds hmem (occF_dirSegment adds p.1 hsrc)).append_right _).append_right _

/-! ### build lemmas -/

/-- Rebuilding a just-built policy with the same enumeration changes nothing:
`MergeBuild` reads only `dirs` (through `ord`), `UpgradeInsecureRequests` and
`ReportURI`, none of which `Build` writes. -/
theorem build_stable (pol : Policy) (ord : List (Str × Directive)) :
    build (build pol ord).1 ord = ((build pol ord).1, (build pol ord).2) := rfl

theorem requireNonce_build (pol : Policy) (ord : List (Str × Directive)) :
    (build pol ord).1.requireNonce = ord.any fun p => p.2.requireNonce := by
  simp [build, mergeBuild, writeDirsNonce]

/-! ### claims -/

/-- C1.  For a built policy: when no directive requests a nonce, `WithNonce`
returns the cached compiled string unchanged, leaves the caller's token
variable untouched (empty when it started empty) and consumes no randomness;
when some directive requests a nonce, it returns the cached compiled string
with every occurrence of the placeholder replaced by `'nonce-<token>'` for
exactly the token it returns, and that result differs from the cached string.
The hypothesis records the invariant, established by `Directive.Add`, that a
directive flagged `requireNonce` carries the placeholder among its sources. -/
theorem claim1_withNonce_gating (pol0 : Policy) (ord : List (Str × Directive))
    (rand : List (List Nat)) (nonceIn : Str)
    (hWF : ∀ p ∈ ord, p.2.requireNonce = true → noncePlaceholder ∈ p.2.sources) :
    ((build pol0 ord).1.requireNonce = false →
      withNonce (build pol0 ord).1 ord rand nonceIn =
        ((build pol0 ord).1, (build pol0 ord).1.compiled, nonceIn, rand)) ∧
    ((build pol0 ord).1.requireNonce = true →
      withNonce (build pol0 ord).1 ord rand nonceIn =
        ((build pol0 ord).1,
          replaceAll noncePlaceholder
            (str "'nonce-" ++ b64url (rand.headD (List.replicate 16 0)) ++ str "'")
            (build pol0 ord).1.compiled,
          b64url (rand.headD (List.replicate 16 0)), rand.drop 1) ∧
      replaceAll noncePlaceholder
          (str "'nonce-" ++ b64url (rand.headD (List.replicate 16 0)) ++ str "'")
          (build pol0 ord).1.compiled ≠ (build pol0 ord).1.compiled) := by
  constructor
  · intro hreq
    by_cases hc : (build pol0 ord).1.compiled = []
    · simp only [withNonce, hc, if_true, build_stable, hreq, if_pos rfl]
    · simp only [withNonce, hc, if_false, hreq, if_pos rfl]
      simp [hc]
  · intro hreq
    have hreq2 := hreq
    rw [requireNonce_build] at hreq2
    obtain ⟨p, hp, hpr⟩ := List.any_eq_true.mp hreq2
    have hsrc := hWF p hp hpr
    have hocc : Occ noncePlaceholder (build pol0 ord).1.compiled :=
      occ_mergeBuild pol0 (fun _ => none) hp hsrc
    have hcne : (build pol0 ord).1.compiled ≠ [] := occ_ne_nil hocc (by decide)
    have hrepne : replaceAll noncePlaceholder
        (str "'nonce-" ++ b64url (rand.headD (List.replicate 16 0)) ++ str "'")
        (build pol0 ord).1.compiled ≠ (build pol0 ord).1.compiled := by
      apply replaceAll_ne _ _ (by decide) _ _ hocc
      have h1 : (str "'nonce-").length = 7 := rfl
      have h2 : (str "'").length = 1 := rfl
      have h3 : noncePlaceholder.length = 6 := rfl
      rw [h3, List.length_append, List.length_append, h1, h2]
      omega
    refine ⟨?_, hrepne⟩
    simp only [withNonce, hcne, if_false, hreq]
    simp [hcne, hreq]

/-- C1 witness: a one-directive nonce policy and a no-nonce policy,
instantiated with a concrete random stream. -/
theorem claim1_witness :
    ((∀ p ∈ [((str "script-src"),
        (⟨[noncePlaceholder], true⟩ : Directive))], p.2.requireNonce = true →
        noncePlaceholder ∈ p.2.sources) ∧
      (build ⟨[(str "script-src", ⟨[noncePlaceholder], true⟩)], [], [], false, false⟩
        [(str "script-src", ⟨[noncePlaceholder], true⟩)]).1.requireNonce = true) ∧
    ((build ⟨[(str "script-src", ⟨[noncePlaceholder], true⟩)], [], [], false, false⟩
        [(str "script-src", ⟨[noncePlaceholder], true⟩)]).1.requireNonce = true →
      withNonce (build ⟨[(str "script-src", ⟨[noncePlaceholder], true⟩)], [], [], false, false⟩
          [(str "script-src", ⟨[noncePlaceholder], true⟩)]).1
          [(str "script-src", ⟨[noncePlaceholder], true⟩)] [List.replicate 16 0] [] =
        ((build ⟨[(str "script-src", ⟨[noncePlaceholder], true⟩)], [], [], false, false⟩
            [(str "script-src", ⟨[noncePlaceholder], true⟩)]).1,
          replaceAll noncePlaceholder
            (str "'nonce-" ++ b64url (([List.replicate 16 0]).headD (List.replicate 16 0)) ++ str "'")
            (build ⟨[(str "script-src", ⟨[noncePlaceholder], true⟩)], [], [], false, false⟩
              [(str "script-src", ⟨[noncePlaceholder], true⟩)]).1.compiled,
          b64url (([List.replicate 16 0]).headD (List.replicate 16 0)),
          ([List.replicate 16 0]).drop 1) ∧
      replaceAll noncePlaceholder
          (str "'nonce-" ++ b64url (([List.replicate 16 0]).headD (List.replicate 16 0)) ++ str "'")
          (build ⟨[(str "script-src", ⟨[noncePlaceholder], true⟩)], [], [], false, false⟩
            [(str "script-src", ⟨[noncePlaceholder], true⟩)]).1.compiled ≠
        (build ⟨[(str "script-src", ⟨[noncePlaceholder], true⟩)], [], [], false, false⟩
          [(str "script-src", ⟨[noncePlaceholder], true⟩)]).1.compiled) :=
  ⟨⟨by decide, by decide⟩,
    (claim1_withNonce_gating
      ⟨[(str "script-src", ⟨[noncePlaceholder], true⟩)], [], [], false, false⟩
      [(str "script-src", ⟨[noncePlaceholder], true⟩)]
      [List.replicate 16 0] [] (by decide)).2⟩

/-- C10.  Calling `WithNonce` on a policy whose `Compiled` field is empty first
runs `Build` and then proceeds on the fresh compilation, so the call equals
`Build` followed by `WithNonce` (with the same map enumeration). -/
theorem claim10_withNonce_builds (pol : Policy) (ord : List (Str × Directive))
    (rand : List (List Nat)) (nonceIn : Str) (h : pol.compiled = []) :
    withNonce pol ord rand nonceIn = withNonce (build pol ord).1 ord rand nonceIn := by
  by_cases hc : (build pol ord).1.compiled = []
  · simp only [withNonce, h, if_true, hc, build_stable, if_pos rfl]
  · simp only [withNonce, h, if_pos rfl]
    simp [hc]

/-- C10 witness: an unbuilt one-directive policy. -/
theorem claim10_witness :
    ((⟨[(str "script-src", ⟨[str "'self'"], false⟩)], [], [], false, false⟩ :
        Policy).compiled = []) ∧
    withNonce (⟨[(str "script-src", ⟨[str "'self'"], false⟩)], [], [], false, false⟩ : Policy)
        [(str "script-src", ⟨[str "'self'"], false⟩)] [] [] =
      withNonce (build
          (⟨[(str "script-src", ⟨[str "'self'"], false⟩)], [], [], false, false⟩ : Policy)
          [(str "script-src", ⟨[str "'self'"], false⟩)]).1
        [(str "script-src", ⟨[str "'self'"], false⟩)] [] [] :=
  ⟨rfl, claim10_withNonce_builds _ _ _ _ rfl⟩

/-- On a built policy that requires a nonce (with the `Add`-established
invariant), `WithNonce` consumes exactly the head draw and returns the policy
unchanged. -/
theorem withNonce_true_eq (pol0 : Policy) (ord : List (Str × Directive))
    (rand : List (List Nat)) (nonceIn : Str)
    (hWF : ∀ p ∈ ord, p.2.requireNonce = true → noncePlaceholder ∈ p.2.sources)
    (hreq : (build pol0 ord).1.requireNonce = true) :
    withNonce (build pol0 ord).1 ord rand nonceIn =
      ((build pol0 ord).1,
        replaceAll noncePlaceholder
          (str "'nonce-" ++ b64url (rand.headD (List.replicate 16 0)) ++ str "'")
          (build pol0 ord).1.compiled,
        b64url (rand.headD (List.replicate 16 0)), rand.drop 1) := by
  have hreq2 := hreq
  rw [requireNonce_build] at hreq2
  obtain ⟨p, hp, hpr⟩ := List.any_eq_true.mp hreq2
  have hsrc := hWF p hp hpr
  have hocc : Occ noncePlaceholder (build pol0 ord).1.compiled :=
    occ_mergeBuild pol0 (fun _ => none) hp hsrc
  have hcne : (build pol0 ord).1.compiled ≠ [] := occ_ne_nil hocc (by decide)
  simp only [withNonce, hcne, if_false, hreq]
  simp [hcne, hreq]

/-- C2.  Each `WithNonce` call on a nonce-requiring built policy consumes a
fresh draw from the random stream: the first call returns the token of the
first draw and hands the rest of the stream on, the second call returns the
token of the second draw; distinct draws give distinct tokens; and each token
is valid unpadded URL-safe base64 decoding to its 16-byte (≥ 16 bytes) draw. -/
theorem claim2_nonce_freshness (pol0 : Policy) (ord : List (Str × Directive))
    (nonceIn : Str) (d1 d2 : List Nat) (rest : List (List Nat))
    (hWF : ∀ p ∈ ord, p.2.requireNonce = true → noncePlaceholder ∈ p.2.sources)
    (hreq : (build pol0 ord).1.requireNonce = true)
    (h1 : d1.length = 16) (h2 : d2.length = 16)
    (hb1 : ∀ b ∈ d1, b < 256) (hb2 : ∀ b ∈ d2, b < 256)
    (hdiff : d1 ≠ d2) :
    (withNonce (build pol0 ord).1 ord (d1 :: d2 :: rest) nonceIn).2.2.1 = b64url d1 ∧
    (withNonce (build pol0 ord).1 ord (d1 :: d2 :: rest) nonceIn).2.2.2 = d2 :: rest ∧
    (withNonce (withNonce (build pol0 ord).1 ord (d1 :: d2 :: rest) nonceIn).1 ord
      (withNonce (build pol0 ord).1 ord (d1 :: d2 :: rest) nonceIn).2.2.2
      nonceIn).2.2.1 = b64url d2 ∧
    b64url d1 ≠ b64url d2 ∧
    b64urlDecode (b64url d1) = some d1 ∧ 16 ≤ d1.length ∧
    b64urlDecode (b64url d2) = some d2 ∧ 16 ≤ d2.length := by
  have e1 := withNonce_true_eq pol0 ord (d1 :: d2 :: rest) nonceIn hWF hreq
  have hdec1 : b64urlDecode (b64url d1) = some d1 := b64urlDecode_b64url d1 hb1
  have hdec2 : b64urlDecode (b64url d2) = some d2 := b64urlDecode_b64url d2 hb2
  have htok : b64url d1 ≠ b64url d2 := by
    intro he
    rw [he, hdec2] at hdec1
    exact hdiff (Option.some.inj hdec1).symm
  refine ⟨by rw [e1]; simp, by rw [e1]; simp, ?_, htok, hdec1, by omega, hdec2, by omega⟩
  rw [e1]
  have e2 := withNonce_true_eq pol0 ord (d2 :: rest) nonceIn hWF hreq
  simp only [List.drop_succ_cons, List.drop_zero]
  rw [e2]
  simp

/-- Concrete nonce policy used by the C2 witness. -/
def nPol : Policy :=
  ⟨[(str "script-src", ⟨[noncePlaceholder], true⟩)], [], [], false, false⟩

/-- Enumeration of `nPol`'s single directive. -/
def nOrd : List (Str × Directive) := [(str "script-src", ⟨[noncePlaceholder], true⟩)]

def drawA : List Nat := List.replicate 16 0

def drawB : List Nat := 1 :: List.replicate 15 0

/-- C2 witness: two concrete distinct 16-byte draws on a concrete
nonce-requiring policy. -/
theorem claim2_witness :
    ((∀ p ∈ nOrd, p.2.requireNonce = true → noncePlaceholder ∈ p.2.sources) ∧
      (build nPol nOrd).1.requireNonce = true ∧
      drawA.length = 16 ∧ drawB.length = 16 ∧
      (∀ b ∈ drawA, b < 256) ∧ (∀ b ∈ drawB, b < 256) ∧ drawA ≠ drawB) ∧
    ((withNonce (build nPol nOrd).1 nOrd (drawA :: drawB :: []) []).2.2.1 = b64url drawA ∧
      (withNonce (build nPol nOrd).1 nOrd (drawA :: drawB :: []) []).2.2.2 = drawB :: [] ∧
      (withNonce (withNonce (build nPol nOrd).1 nOrd (drawA :: drawB :: []) []).1 nOrd
        (withNonce (build nPol nOrd).1 nOrd (drawA :: drawB :: []) []).2.2.2
        []).2.2.1 = b64url drawB ∧
      b64url drawA ≠ b64url drawB ∧
      b64urlDecode (b64url drawA) = some drawA ∧ 16 ≤ drawA.length ∧
      b64urlDecode (b64url drawB) = some drawB ∧ 16 ≤ drawB.length) :=
  ⟨⟨by decide, by decide, by decide, by decide, by decide, by decide, by decide⟩,
    claim2_nonce_freshness nPol nOrd [] drawA drawB [] (by decide) (by decide)
      (by decide) (by decide) (by decide) (by decide) (by decide)⟩

/-! ### C4, C5: Build determinism and layout -/

/-- Two-directive policy on which the enumeration order is observable. -/
def twoDirPol : Policy :=
  ⟨[(str "img-src", ⟨[str "'self'"], false⟩), (str "font-src", ⟨[str "data:"], false⟩)],
    [], [], false, false⟩

def ordA : List (Str × Directive) :=
  [(str "img-src", ⟨[str "'self'"], false⟩), (str "font-src", ⟨[str "data:"], false⟩)]

def ordB : List (Str × Directive) :=
  [(str "font-src", ⟨[str "data:"], false⟩), (str "img-src", ⟨[str "'self'"], false⟩)]

/-- C4 counterexample: `Build` ranges over a Go map, whose iteration order may
change between calls; with two directives, a first `Build` enumerating in one
order and a second in the other (no mutation in between) return different
strings. -/
theorem claim4_counterexample :
    ordA.Perm twoDirPol.dirs ∧ ordB.Perm twoDirPol.dirs ∧
    (build (build twoDirPol ordA).1 ordB).2 ≠ (build twoDirPol ordA).2 := by
  decide

/-- C4 (amended): two `Build` calls that enumerate the directive map in the
same order yield identical strings, and each call leaves `Compiled` equal to
the string it returns. -/
theorem claim4_build_idempotent (pol : Policy) (ord : List (Str × Directive)) :
    (build (build pol ord).1 ord).2 = (build pol ord).2 ∧
    (build pol ord).1.compiled = (build pol ord).2 ∧
    (build (build pol ord).1 ord).1.compiled = (build (build pol ord).1 ord).2 :=
  ⟨rfl, rfl, rfl⟩

/-- Policy with a `default-src` directive plus a second directive. -/
def defaultPol : Policy :=
  ⟨[(str "default-src", ⟨[str "'none'"], false⟩), (str "script-src", ⟨[str "'self'"], false⟩)],
    [], [], false, false⟩

def defOrdA : List (Str × Directive) :=
  [(str "default-src", ⟨[str "'none'"], false⟩), (str "script-src", ⟨[str "'self'"], false⟩)]

def defOrdB : List (Str × Directive) :=
  [(str "script-src", ⟨[str "'self'"], false⟩), (str "default-src", ⟨[str "'none'"], false⟩)]

/-- C5 counterexample: the current `writeDirs` has the default-src-first block
commented out and ranges over the map directly, so an enumeration that yields
`script-src` first produces a compiled string that does not start with
`default-src`, and two enumeration orders give different strings — there is no
fixed deterministic order. -/
theorem claim5_counterexample :
    defOrdB.Perm defaultPol.dirs ∧
    (str "default-src").isPrefixOf (build defaultPol defOrdB).2 = false ∧
    (build defaultPol defOrdA).2 ≠ (build defaultPol defOrdB).2 := by
  decide

/-- C5 (amended): `Build` emits the directives exactly in map-enumeration
order, each as name, one blank, the rendered source list and a terminating
semicolon, then the upgrade-insecure-requests and report-uri parts, with a
single trailing semicolon trimmed; `default-src` gets no special placement. -/
theorem claim5_build_layout (pol : Policy) (ord : List (Str × Directive)) :
    (build pol ord).2 =
      trimSemi ((joinStr (ord.map fun p => p.1 ++ ' ' :: (p.2.write ++ [';'])) ++
        (if pol.upgradeInsecureRequests then upgradeStr else [])) ++
        (if pol.reportURI ≠ [] then reportUriStr ++ pol.reportURI else [])) := by
  simp [build, mergeBuild, writeDirsStr, dirSegment]

/-! ### C6: MergeBuild frame and merge layout -/

theorem writeDirsStr_congr (adds adds' : Str → Option Directive) :
    ∀ ord : List (Str × Directive), (∀ p ∈ ord, adds p.1 = adds' p.1) →
      writeDirsStr adds ord = writeDirsStr adds' ord
  | [], _ => rfl
  | q :: ord', h => by
      have hq := h q (by simp)
      have ih := writeDirsStr_congr adds adds' ord' (fun p hp => h p (by simp [hp]))
      unfold writeDirsStr at ih ⊢
      simp only [List.map_cons, joinStr, ih]
      congr 1
      simp [dirSegment, hq]

/-- C6.  `MergeBuild` leaves the policy's cached `Compiled` and its stored
directives untouched; a directive whose name the additions also carry renders
inside its segment as the static sources, then the additional sources, then
the closing semicolon, and that static-then-additional text occurs in the
returned string; and the returned string only depends on the additions at the
names the policy itself enumerates, so addition-only names contribute
nothing. -/
theorem claim6_mergeBuild_frame (pol : Policy) (adds adds' : Str → Option Directive)
    (ord : List (Str × Directive)) (name : Str) (d d2 : Directive)
    (hmem : (name, d) ∈ ord) (hadd : adds name = some d2)
    (hagree : ∀ p ∈ ord, adds p.1 = adds' p.1) :
    (mergeBuild pol adds ord).1.compiled = pol.compiled ∧
    (mergeBuild pol adds ord).1.dirs = pol.dirs ∧
    dirSegment adds name d =
      name ++ (' ' :: ((d.write ++ (' ' :: d2.write)) ++ [';'])) ∧
    Occ (name ++ (' ' :: (d.write ++ (' ' :: d2.write)))) (mergeBuild pol adds ord).2 ∧
    (mergeBuild pol adds ord).2 = (mergeBuild pol adds' ord).2 := by
  refine ⟨rfl, rfl, ?_, ?_, ?_⟩
  · simp [dirSegment, hadd]
  · have hseg : OccF (name ++ (' ' :: (d.write ++ (' ' :: d2.write))))
        (dirSegment adds name d) := by
      refine ⟨[], ';', [], ?_⟩
      simp [dirSegment, hadd]
    have hbody := occF_writeDirsStr adds hmem hseg
    simp only [mergeBuild]
    exact occ_trimSemi ((hbody.append_right _).append_right _)
  · simp only [mergeBuild]
    rw [writeDirsStr_congr adds adds' ord hagree]

/-- Additions map of the C6 witness: one entry extending `script-src`, one
entry for a name absent from the policy. -/
def addsW : Str → Option Directive := fun n =>
  if n = str "script-src" then some ⟨[str "'sha256-aaa'"], false⟩
  else if n = str "style-src" then some ⟨[str "ignored"], false⟩
  else none

/-- The same additions without the policy-absent entry. -/
def addsW2 : Str → Option Directive := fun n =>
  if n = str "script-src" then some ⟨[str "'sha256-aaa'"], false⟩ else none

/-- Static policy of the C6 witness, with a nonempty cached compiled string. -/
def mPol : Policy :=
  ⟨[(str "script-src", ⟨[str "'self'"], false⟩)], [], str "old-compiled", false, false⟩

def mOrd : List (Str × Directive) := [(str "script-src", ⟨[str "'self'"], false⟩)]

/-- C6 witness: concrete merge of a per-request hash into `script-src`,
with an addition-only `style-src` entry that must not surface. -/
theorem claim6_witness :
    (((str "script-src"), (⟨[str "'self'"], false⟩ : Directive)) ∈ mOrd ∧
      addsW (str "script-src") = some ⟨[str "'sha256-aaa'"], false⟩ ∧
      (∀ p ∈ mOrd, addsW p.1 = addsW2 p.1)) ∧
    ((mergeBuild mPol addsW mOrd).1.compiled = mPol.compiled ∧
      (mergeBuild mPol addsW mOrd).1.dirs = mPol.dirs ∧
      dirSegment addsW (str "script-src") ⟨[str "'self'"], false⟩ =
        str "script-src" ++ (' ' :: ((Directive.write ⟨[str "'self'"], false⟩ ++
          (' ' :: Directive.write ⟨[str "'sha256-aaa'"], false⟩)) ++ [';'])) ∧
      Occ (str "script-src" ++ (' ' :: (Directive.write ⟨[str "'self'"], false⟩ ++
          (' ' :: Directive.write ⟨[str "'sha256-aaa'"], false⟩))))
        (mergeBuild mPol addsW mOrd).2 ∧
      (mergeBuild mPol addsW mOrd).2 = (mergeBuild mPol addsW2 mOrd).2) :=
  ⟨⟨by decide, by decide, by decide⟩,
    claim6_mergeBuild_frame mPol addsW addsW2 mOrd (str "script-src")
      ⟨[str "'self'"], false⟩ ⟨[str "'sha256-aaa'"], false⟩
      (by decide) (by decide) (by decide)⟩

/-! ### C7, C8: hash literals -/

/-- C7.  `hash(512, "doSomething()")` is exactly the documented literal, and
`Directive.Hash` appends exactly that literal to the directive's sources. -/
theorem claim7_hash_determinism :
    hashFn 512 (str "doSomething()") =
      some (str "'sha512-NrS2FABurNzIW2yTKRxF8X+HMhJh29vd9syOLut1MW4Cd1JeGzZqughLzC+LQr0O8XFhCuR4zyjLgrTQct7jAA=='") ∧
    ∀ d : Directive, d.hashAdd 512 (str "doSomething()") =
      some { d with sources := d.sources ++
        [str "'sha512-NrS2FABurNzIW2yTKRxF8X+HMhJh29vd9syOLut1MW4Cd1JeGzZqughLzC+LQr0O8XFhCuR4zyjLgrTQct7jAA=='"] } := by
  have h : hashFn 512 (str "doSomething()") =
      some (str "'sha512-NrS2FABurNzIW2yTKRxF8X+HMhJh29vd9syOLut1MW4Cd1JeGzZqughLzC+LQr0O8XFhCuR4zyjLgrTQct7jAA=='") := by
    decide
  exact ⟨h, fun d => by simp [Directive.hashAdd, h]⟩

/-- C8.  Any algorithm identifier outside {256, 384, 512} hits the
`default: panic("invalid hashType")` branch of `hash`: the call fails
(`none`), and `Directive.Hash` neither skips silently nor appends a malformed
literal — it propagates the failure and leaves no modified directive. -/
theorem claim8_hash_unsupported (ht : Nat) (h256 : ht ≠ 256) (h384 : ht ≠ 384)
    (h512 : ht ≠ 512) :
    (∀ source : Str, hashFn ht source = none) ∧
    ∀ (d : Directive) (source : Str), d.hashAdd ht source = none := by
  have hf : ∀ source : Str, hashFn ht source = none := by
    intro source
    unfold hashFn
    split <;> simp_all
  exact ⟨hf, fun d source => by simp [Directive.hashAdd, hf]⟩

/-- C8 witness: the unsupported identifier 511. -/
theorem claim8_witness :
    ((511 : Nat) ≠ 256 ∧ (511 : Nat) ≠ 384 ∧ (511 : Nat) ≠ 512) ∧
    (∀ source : Str, hashFn 511 source = none) ∧
    ∀ (d : Directive) (source : Str), d.hashAdd 511 source = none :=
  ⟨⟨by decide, by decide, by decide⟩,
    claim8_hash_unsupported 511 (by decide) (by decide) (by decide)⟩

/-! ### C9: singleton immutability -/

/-- C9 counterexample: `Directive.Hash` performs no singleton check — called
on the shared self-only singleton it is not rejected (`isSome`), and the value
behind the shared reference grows from one source to two. -/
theorem claim9_counterexample :
    (DirRef.selfD.hash 512 (str "x")).isSome = true ∧
    ((DirRef.selfD.hash 512 (str "x")).map fun d => d.sources.length) = some 2 ∧
    DirRef.selfD.val.sources.length = 1 := by
  refine ⟨rfl, rfl, rfl⟩

/-- C9 (amended): `Directive.Add` on either shared singleton is detected and
rejected (panic) for every source list, while `Directive.Hash` performs no such
check: for every supported algorithm it succeeds on the singletons and appends
to the shared value. -/
theorem claim9_singleton_guard (ss : List Str) (ht : Nat) (source : Str)
    (hht : ht = 256 ∨ ht = 384 ∨ ht = 512) :
    DirRef.selfD.add ss = none ∧ DirRef.noneD.add ss = none ∧
    (DirRef.selfD.hash ht source).isSome = true ∧
    (DirRef.noneD.hash ht source).isSome = true := by
  refine ⟨rfl, rfl, ?_, ?_⟩ <;>
    rcases hht with rfl | rfl | rfl <;>
      simp [DirRef.hash, Directive.hashAdd, hashFn]

/-- C9 witness for the amended statement. -/
theorem claim9_witness :
    ((256 : Nat) = 256 ∨ (256 : Nat) = 384 ∨ (256 : Nat) = 512) ∧
    (DirRef.selfD.add [str "a.com"] = none ∧ DirRef.noneD.add [str "a.com"] = none ∧
      (DirRef.selfD.hash 256 (str "x")).isSome = true ∧
      (DirRef.noneD.hash 256 (str "x")).isSome = true) :=
  ⟨Or.inl rfl, claim9_singleton_guard [str "a.com"] 256 (str "x") (Or.inl rfl)⟩

/-! ### C3: the all/none short-circuit of src/csp.go -/

/-- C3 counterexample: in the flag renderer of src/csp.go the short-circuit
tests `SourceFlag == All` by equality, so a directive with the All bit set
together with Self (flag 6 = All ||| Self) renders as `' 'self';'` — no `*`
appears at all. -/
theorem claim3_counterexample :
    ((2 : Nat) &&& 6 ≠ 0) ∧
    flagWrite { Sources := [], SourceFlag := 6 } = str " 'self';" ∧
    '*' ∉ flagWrite { Sources := [], SourceFlag := 6 } := by
  decide

/-- C3 (amended): the `*` short-circuit fires exactly when `SourceFlag` equals
`All` with no other bit, rendering `' *;'`; and a Directive with no flags
(`SourceFlag == None`) and no sources renders `' 'none';'`. -/
theorem claim3_all_none_shortcircuit (d : FDirective) :
    (d.SourceFlag = 2 → flagWrite d = str " *;") ∧
    (d.SourceFlag = 0 → d.Sources = [] → flagWrite d = str " 'none';") := by
  constructor
  · intro h
    rw [flagWrite, if_pos (Or.inl h), h]
    decide
  · intro h1 h2
    rw [flagWrite, if_pos (Or.inr ⟨h1, h2⟩), h1]
    decide

/-- C3 witness: the two short-circuit inputs evaluated concretely. -/
theorem claim3_witness :
    ((({ Sources := [], SourceFlag := 2 } : FDirective).SourceFlag = 2) ∧
      flagWrite { Sources := [], SourceFlag := 2 } = str " *;") ∧
    ((({ Sources := [], SourceFlag := 0 } : FDirective).SourceFlag = 0) ∧
      ({ Sources := [], SourceFlag := 0 } : FDirective).Sources = [] ∧
      flagWrite { Sources := [], SourceFlag := 0 } = str " 'none';") :=
  ⟨⟨rfl, (claim3_all_none_shortcircuit _).1 rfl⟩,
    ⟨rfl, rfl, (claim3_all_none_shortcircuit _).2 rfl rfl⟩⟩
